import Mathlib

/-!
Verification of the expression-parser core of
`Source/Core/InputCommon/ControlReference/ExpressionParser.{h,cpp}` (Dolphin
input-binding expressions): lexer, recursive-descent parser, expression-tree
evaluation, and the top-level `ParseExpression` entry point.

Shallow embedding conventions:
* `ControlState` (a C++ `double`) is modelled as `ℚ`; the operations involved
  (`min`, `max`, `+` with clamp, `1 - x`) are order/arithmetic facts that the
  claims state over values in `[0, 1]`.
* Strings are modelled as `List Char`.
* A `Device::Control*` handle is modelled as `Option Control`; a `Control`
  carries an id (for observing writes) and its current input state.
  `SetValue` is modelled as the list of `(control id, value)` write events
  that the call performs, in order.
* The `while` loops of the lexer are structural recursions on the remaining
  character list; the mutually recursive parser is defined with an explicit
  fuel parameter (the C++ recursion depth is bounded by the token count, and
  the wrapper `ParseTokens` supplies ample fuel), keeping every definition
  computable by the kernel.
-/

namespace ExpressionParser

/-- The backtick character, `` ` `` (ASCII 96). -/
def backtickChar : Char := Char.ofNat 96

/-- `ControlState` is `double` in the source (`typedef double ControlState`);
modelled as `ℚ`. -/
abbrev ControlState := ℚ

/-- Modelled from the spec: `Core::DeviceQualifier` (not under `src/`) is a
device identity round-tripping through its string form (`FromString`/`ToString`
are mutually inverse); modelled as that string. -/
abbrev DeviceQualifier := List Char

/-- Modelled from the spec: a `Device::Control*` handle; carries an id used to
observe output writes and the current input state returned by
`ToInput()->GetState()`. -/
structure Control where
  cid : Nat
  state : ControlState
deriving DecidableEq, Repr

/-- Modelled from the spec: `Core::Device` (not under `src/`) exposes
"find input control by name" and "find output control by name". -/
structure Device where
  FindInput : List Char → Option Control
  FindOutput : List Char → Option Control

/-- Modelled from the spec: `Core::DeviceContainer` (not under `src/`) exposes
"find device by identity". -/
abbrev DeviceContainer := DeviceQualifier → Option Device

/-- `ControlQualifier` from `ExpressionParser.h`. -/
structure ControlQualifier where
  has_device : Bool
  device_qualifier : DeviceQualifier
  control_name : List Char
deriving DecidableEq, Repr

/-- The default-constructed `ControlQualifier` (`has_device = false`). -/
def emptyQualifier : ControlQualifier := ⟨false, [], []⟩

/-- `ControlQualifier::operator std::string` from `ExpressionParser.h`. -/
def ControlQualifierToString (q : ControlQualifier) : List Char :=
  if q.has_device then q.device_qualifier ++ ':' :: q.control_name
  else q.control_name

/-- `ControlFinder` from `ExpressionParser.h`. -/
structure ControlFinder where
  container : DeviceContainer
  default_device : DeviceQualifier
  is_input : Bool

/-- `ControlFinder::FindDevice` from `ExpressionParser.cpp`. -/
def FindDevice (f : ControlFinder) (q : ControlQualifier) : Option Device :=
  if q.has_device then f.container q.device_qualifier
  else f.container f.default_device

/-- `ControlFinder::FindControl` from `ExpressionParser.cpp`. -/
def FindControl (f : ControlFinder) (q : ControlQualifier) : Option Control :=
  match FindDevice f q with
  | none => none
  | some d => if f.is_input then d.FindInput q.control_name
              else d.FindOutput q.control_name

/-- The `TokenType` enum from `ExpressionParser.cpp`. -/
inductive TokenType where
  | TOK_DISCARD
  | TOK_INVALID
  | TOK_EOF
  | TOK_LPAREN
  | TOK_RPAREN
  | TOK_AND
  | TOK_OR
  | TOK_NOT
  | TOK_ADD
  | TOK_CONTROL
deriving DecidableEq, Repr

/-- The `Token` class: a type plus a qualifier (meaningful for
`TOK_CONTROL`; default-constructed otherwise). -/
structure Token where
  type : TokenType
  qualifier : ControlQualifier
deriving DecidableEq, Repr

/-- A token with a default-constructed qualifier. -/
def mkToken (t : TokenType) : Token := ⟨t, emptyQualifier⟩

/-- The `ParseStatus` enum as used by `ExpressionParser.cpp`. -/
inductive ParseStatus where
  | Successful
  | SyntaxError
  | EmptyExpression
deriving DecidableEq, Repr

/-- `OpName` from `ExpressionParser.cpp` (the `assert(false)` default branch
returns the empty string). -/
def OpName : TokenType → List Char
  | .TOK_AND => "And".toList
  | .TOK_OR => "Or".toList
  | .TOK_NOT => "Not".toList
  | .TOK_ADD => "Add".toList
  | _ => []

/-- The expression-tree node hierarchy (`ControlExpression`,
`BinaryExpression`, `UnaryExpression`).  `ControlExpression` stores its
qualifier and resolved control handle; the `m_device` shared pointer of the
source only pins the control's lifetime and has no observable behaviour, so
it is not modelled. -/
inductive Expression where
  | ControlExpression (qualifier : ControlQualifier) (control : Option Control)
  | BinaryExpression (op : TokenType) (lhs rhs : Expression)
  | UnaryExpression (op : TokenType) (inner : Expression)
deriving DecidableEq, Repr

/-- `GetValue` of the three node classes (the `assert(false)` default
branches return `0`). -/
def GetValue : Expression → ControlState
  | .ControlExpression _ control =>
    match control with
    | some c => c.state
    | none => 0
  | .BinaryExpression op lhs rhs =>
    let lhsValue := GetValue lhs
    let rhsValue := GetValue rhs
    match op with
    | .TOK_AND => min lhsValue rhsValue
    | .TOK_OR => max lhsValue rhsValue
    | .TOK_ADD => min (lhsValue + rhsValue) 1
    | _ => 0
  | .UnaryExpression op inner =>
    match op with
    | .TOK_NOT => 1 - GetValue inner
    | _ => 0

/-- `SetValue` of the three node classes, observed as the ordered list of
`(control id, value)` writes performed through `ToOutput()->SetState`. -/
def SetValue : Expression → ControlState → List (Nat × ControlState)
  | .ControlExpression _ control, value =>
    match control with
    | some c => [(c.cid, value)]
    | none => []
  | .BinaryExpression _ lhs rhs, value =>
    SetValue lhs value ++ SetValue rhs value
  | .UnaryExpression op inner, value =>
    match op with
    | .TOK_NOT => SetValue inner (1 - value)
    | _ => []

/-- `CountNumControls` of the three node classes
(`control ? 1 : 0` at a leaf). -/
def CountNumControls : Expression → Nat
  | .ControlExpression _ control => if control.isSome then 1 else 0
  | .BinaryExpression _ lhs rhs => CountNumControls lhs + CountNumControls rhs
  | .UnaryExpression _ inner => CountNumControls inner

/-- `operator std::string` of the three node classes. -/
def ExpressionToString : Expression → List Char
  | .ControlExpression q _ =>
    backtickChar :: (ControlQualifierToString q ++ [backtickChar])
  | .BinaryExpression op lhs rhs =>
    OpName op ++ '(' :: (ExpressionToString lhs
      ++ ',' :: ' ' :: (ExpressionToString rhs ++ [')']))
  | .UnaryExpression op inner =>
    OpName op ++ '(' :: (ExpressionToString inner ++ [')'])

/-- `Lexer::FetchBacktickString`: consumes characters until a backtick
(returns `false`), the other delimiter (returns `true`), or end of input
(returns `false`); yields (found-delimiter?, collected value, remaining
input).  The C++ default `otherDelim = 0` together with the `c > 0` guard is
modelled by `otherDelim = none`. -/
def FetchBacktickString (otherDelim : Option Char) : List Char → Bool × List Char × List Char
  | [] => (false, [], [])
  | c :: rest =>
    if c == backtickChar then (false, [], rest)
    else if some c == otherDelim then (true, [], rest)
    else
      let r := FetchBacktickString otherDelim rest
      (r.1, c :: r.2.1, r.2.2)

/-- `Lexer::GetFullyQualifiedControl` (the opening backtick is already
consumed). -/
def GetFullyQualifiedControl (s : List Char) : Token × List Char :=
  match FetchBacktickString (some ':') s with
  | (true, value, rest₁) =>
    let r := FetchBacktickString none rest₁
    (⟨.TOK_CONTROL, ⟨true, value, r.2.1⟩⟩, r.2.2)
  | (false, value, rest) => (⟨.TOK_CONTROL, ⟨false, [], value⟩⟩, rest)

/-- `Lexer::GetBarewordsControl`: the first character `c` is already
consumed; greedily take further alphabetic characters. -/
def GetBarewordsControl (c : Char) (s : List Char) : Token × List Char :=
  (⟨.TOK_CONTROL, ⟨false, [], c :: s.takeWhile Char.isAlpha⟩⟩,
   s.dropWhile Char.isAlpha)

/-- `Lexer::NextToken`: classify and consume exactly one token. -/
def NextToken : List Char → Token × List Char
  | [] => (mkToken .TOK_EOF, [])
  | c :: rest =>
    if c == ' ' || c == '\t' || c == '\n' || c == '\r' then
      (mkToken .TOK_DISCARD, rest)
    else if c == '(' then (mkToken .TOK_LPAREN, rest)
    else if c == ')' then (mkToken .TOK_RPAREN, rest)
    else if c == '&' then (mkToken .TOK_AND, rest)
    else if c == '|' then (mkToken .TOK_OR, rest)
    else if c == '!' then (mkToken .TOK_NOT, rest)
    else if c == '+' then (mkToken .TOK_ADD, rest)
    else if c == backtickChar then GetFullyQualifiedControl rest
    else if c.isAlpha then GetBarewordsControl c rest
    else (mkToken .TOK_INVALID, rest)

/-- The loop body of `Lexer::Tokenize`, with a fuel parameter; each
iteration consumes at least one character, so `length + 1` fuel (supplied by
the wrapper `Tokenize`) always suffices.  DISCARD tokens are skipped,
INVALID clears all collected tokens and yields `SyntaxError`, EOF is
appended and stops the loop. -/
def TokenizeLoop : Nat → List Char → ParseStatus × List Token
  | 0, _ => (.SyntaxError, [])
  | fuel + 1, s =>
    match NextToken s with
    | (tok, rest) =>
      match tok.type with
      | .TOK_DISCARD => TokenizeLoop fuel rest
      | .TOK_INVALID => (.SyntaxError, [])
      | .TOK_EOF => (.Successful, [tok])
      | _ =>
        match TokenizeLoop fuel rest with
        | (.Successful, toks) => (.Successful, tok :: toks)
        | (st, toks) => (st, toks)

/-- `Lexer::Tokenize` on a whole input string. -/
def Tokenize (s : List Char) : ParseStatus × List Token :=
  TokenizeLoop (s.length + 1) s

/-- A parse-function result: the `ParseResult` (status and optional tree)
paired with the remaining token sequence (the parser's iterator position). -/
abbrev PR := (ParseStatus × Option Expression) × List Token

/-- `Parser::IsUnaryExpression`. -/
def IsUnaryExpression : TokenType → Bool
  | .TOK_NOT => true
  | _ => false

/-- `Parser::IsBinaryToken`. -/
def IsBinaryToken : TokenType → Bool
  | .TOK_AND => true
  | .TOK_OR => true
  | .TOK_ADD => true
  | _ => false

/-- The six recursive parse procedures of the `Parser` class, bundled so that
the mutual recursion becomes a single structural recursion on fuel.
`BinaryLoop` is the `while` loop inside `Parser::Binary`, carrying the
expression accumulated so far. -/
structure ParserPack where
  Atom : List Token → PR
  Paren : List Token → PR
  Unary : List Token → PR
  BinaryLoop : Expression → List Token → PR
  Binary : List Token → PR
  Toplevel : List Token → PR

/-- The exhausted-fuel parser pack; with the ample fuel supplied by
`ParseTokens` it is never reached. -/
def zeroPack : ParserPack where
  Atom := fun ts => ((.SyntaxError, none), ts)
  Paren := fun ts => ((.SyntaxError, none), ts)
  Unary := fun ts => ((.SyntaxError, none), ts)
  BinaryLoop := fun _ ts => ((.SyntaxError, none), ts)
  Binary := fun ts => ((.SyntaxError, none), ts)
  Toplevel := fun ts => ((.SyntaxError, none), ts)

/-- The recursive-descent parser of `ExpressionParser.cpp` (`Parser::Atom`,
`Parser::Paren`, `Parser::Unary`, `Parser::Binary` with its loop, and
`Parser::Toplevel`), one fuel layer per nested call.  `Chew`/`Peek` on an
exhausted iterator (undefined behaviour in C++, unreachable on
EOF-terminated token sequences) is modelled as seeing `TOK_EOF`. -/
def Parsers (f : ControlFinder) : Nat → ParserPack
  | 0 => zeroPack
  | fuel + 1 =>
    let P := Parsers f fuel
    { Atom := fun ts =>
        match ts with
        | [] => ((.SyntaxError, none), [])
        | t :: rest =>
          match t.type with
          | .TOK_CONTROL =>
            ((.Successful,
              some (.ControlExpression t.qualifier (FindControl f t.qualifier))),
             rest)
          | .TOK_LPAREN => P.Paren rest
          | _ => ((.SyntaxError, none), rest)
      Paren := fun ts =>
        match P.Toplevel ts with
        | ((.Successful, oe), rem) =>
          match rem with
          | r :: rest => if r.type = .TOK_RPAREN then ((.Successful, oe), rest)
                         else ((.SyntaxError, none), rest)
          | [] => ((.SyntaxError, none), [])
        | other => other
      Unary := fun ts =>
        match ts with
        | t :: rest =>
          if IsUnaryExpression t.type then
            match P.Atom rest with
            | ((.Successful, some a), rem) =>
              ((.Successful, some (.UnaryExpression t.type a)), rem)
            | other => other
          else P.Atom ts
        | [] => P.Atom []
      BinaryLoop := fun e ts =>
        match ts with
        | t :: rest =>
          if IsBinaryToken t.type then
            match P.Unary rest with
            | ((.Successful, some u), rem) =>
              P.BinaryLoop (.BinaryExpression t.type e u) rem
            | other => other
          else ((.Successful, some e), ts)
        | [] => ((.Successful, some e), [])
      Binary := fun ts =>
        match P.Unary ts with
        | ((.Successful, some e), rem) => P.BinaryLoop e rem
        | other => other
      Toplevel := fun ts => P.Binary ts }

/-- `Parser(tokens, finder).Parse()` (which is `Toplevel`), with ample fuel
for the recursion depth. -/
def ParseTokens (f : ControlFinder) (toks : List Token) : PR :=
  (Parsers f (4 * toks.length + 8)).Toplevel toks

/-- Modelled from the spec: `StripSpaces` (`Common/StringUtil`, not under
`src/`) trims leading and trailing whitespace. -/
def StripSpaces (s : List Char) : List Char :=
  (((s.dropWhile fun c => c == ' ' || c == '\t' || c == '\n' || c == '\r').reverse.dropWhile
      fun c => c == ' ' || c == '\t' || c == '\n' || c == '\r')).reverse

/-- `ParseExpressionInner` from `ExpressionParser.cpp`. -/
def ParseExpressionInner (f : ControlFinder) (s : List Char) :
    ParseStatus × Option Expression :=
  if StripSpaces s = [] then (.EmptyExpression, none)
  else
    match Tokenize s with
    | (.Successful, toks) => (ParseTokens f toks).1
    | (st, _) => (st, none)

/-- `ParseExpression` from `ExpressionParser.cpp`: the legacy fast path
first tries the whole input string as a bareword control name (the
`FindDevice` result of the fast path only pins the device's lifetime and is
not modelled). -/
def ParseExpression (f : ControlFinder) (s : List Char) :
    ParseStatus × Option Expression :=
  let qualifier : ControlQualifier :=
    { has_device := false, device_qualifier := [], control_name := s }
  match FindControl f qualifier with
  | some control =>
    (.Successful, some (.ControlExpression qualifier (some control)))
  | none => ParseExpressionInner f s

/-- A finder over a container that holds no devices: every control lookup
fails. -/
def emptyFinder : ControlFinder := ⟨fun _ => none, [], true⟩

/-- All leaves of the tree are resolved and their current control states lie
in `[0, 1]` (the hypothesis of the numeric-law claim). -/
def ResolvedLeavesIn01 : Expression → Bool
  | .ControlExpression _ control =>
    match control with
    | some c => decide ((0 : ControlState) ≤ c.state) && decide (c.state ≤ 1)
    | none => false
  | .BinaryExpression _ lhs rhs => ResolvedLeavesIn01 lhs && ResolvedLeavesIn01 rhs
  | .UnaryExpression _ inner => ResolvedLeavesIn01 inner

/-- The number of `TOK_CONTROL` tokens in a token sequence. -/
def ControlTokenCount (toks : List Token) : Nat :=
  (toks.filter fun t => t.type == .TOK_CONTROL).length

/-- The number of `TOK_CONTROL` tokens in a token sequence whose qualifier
resolves to a live control through the given finder. -/
def ResolvedControlTokenCount (f : ControlFinder) (toks : List Token) : Nat :=
  (toks.filter fun t =>
    t.type == .TOK_CONTROL && (FindControl f t.qualifier).isSome).length

/-- Claim C1: `BinaryExpression::GetValue` is `min` for AND, `max` for OR and
the clamped sum `min(l + r, 1)` for ADD; `UnaryExpression::GetValue` is
`1 - v` for NOT; and on a tree whose leaves are all resolved with states in
`[0, 1]`, `GetValue` stays in `[0, 1]`. -/
theorem c1_getvalue_numeric_laws :
    (∀ lhs rhs, GetValue (.BinaryExpression .TOK_AND lhs rhs) =
      min (GetValue lhs) (GetValue rhs)) ∧
    (∀ lhs rhs, GetValue (.BinaryExpression .TOK_OR lhs rhs) =
      max (GetValue lhs) (GetValue rhs)) ∧
    (∀ lhs rhs, GetValue (.BinaryExpression .TOK_ADD lhs rhs) =
      min (GetValue lhs + GetValue rhs) 1) ∧
    (∀ inner, GetValue (.UnaryExpression .TOK_NOT inner) = 1 - GetValue inner) ∧
    (∀ e, ResolvedLeavesIn01 e = true → 0 ≤ GetValue e ∧ GetValue e ≤ 1) := by
  refine ⟨fun _ _ => rfl, fun _ _ => rfl, fun _ _ => rfl, fun _ => rfl, ?_⟩
  intro e he
  induction e with
  | ControlExpression q control =>
    cases control with
    | none => simp [ResolvedLeavesIn01] at he
    | some c =>
      simp only [ResolvedLeavesIn01, Bool.and_eq_true, decide_eq_true_eq] at he
      exact ⟨he.1, he.2⟩
  | BinaryExpression op lhs rhs ihl ihr =>
    simp only [ResolvedLeavesIn01, Bool.and_eq_true] at he
    obtain ⟨hl₀, hl₁⟩ := ihl he.1
    obtain ⟨hr₀, hr₁⟩ := ihr he.2
    cases op
    case TOK_AND =>
      rw [show GetValue (.BinaryExpression .TOK_AND lhs rhs) =
        min (GetValue lhs) (GetValue rhs) from rfl]
      exact ⟨le_min hl₀ hr₀, le_trans (min_le_left _ _) hl₁⟩
    case TOK_OR =>
      rw [show GetValue (.BinaryExpression .TOK_OR lhs rhs) =
        max (GetValue lhs) (GetValue rhs) from rfl]
      exact ⟨le_trans hl₀ (le_max_left _ _), max_le hl₁ hr₁⟩
    case TOK_ADD =>
      rw [show GetValue (.BinaryExpression .TOK_ADD lhs rhs) =
        min (GetValue lhs + GetValue rhs) 1 from rfl]
      exact ⟨le_min (add_nonneg hl₀ hr₀) zero_le_one, min_le_right _ _⟩
    all_goals exact ⟨le_refl _, zero_le_one⟩
  | UnaryExpression op inner ih =>
    simp only [ResolvedLeavesIn01] at he
    obtain ⟨h₀, h₁⟩ := ih he
    cases op
    case TOK_NOT =>
      rw [show GetValue (.UnaryExpression .TOK_NOT inner) =
        1 - GetValue inner from rfl]
      constructor <;> linarith
    all_goals exact ⟨le_refl _, zero_le_one⟩

/-- Closed instance for C1: a concrete resolved tree with leaf states in
`[0, 1]` whose value the theorem bounds. -/
theorem c1_witness :
    ResolvedLeavesIn01
      (.BinaryExpression .TOK_ADD
        (.ControlExpression emptyQualifier (some ⟨0, 1⟩))
        (.UnaryExpression .TOK_NOT
          (.ControlExpression emptyQualifier (some ⟨1, 0⟩)))) = true ∧
    (0 ≤ GetValue
      (.BinaryExpression .TOK_ADD
        (.ControlExpression emptyQualifier (some ⟨0, 1⟩))
        (.UnaryExpression .TOK_NOT
          (.ControlExpression emptyQualifier (some ⟨1, 0⟩)))) ∧
     GetValue
      (.BinaryExpression .TOK_ADD
        (.ControlExpression emptyQualifier (some ⟨0, 1⟩))
        (.UnaryExpression .TOK_NOT
          (.ControlExpression emptyQualifier (some ⟨1, 0⟩)))) ≤ 1) :=
  ⟨by decide, c1_getvalue_numeric_laws.2.2.2.2 _ (by decide)⟩

/-- Claim C4: `BinaryExpression::SetValue` forwards the value unchanged to
both children for each of AND, OR and ADD, and `UnaryExpression::SetValue`
for NOT forwards `1 - v` to its child. -/
theorem c4_setvalue_write_semantics :
    (∀ value lhs rhs, SetValue (.BinaryExpression .TOK_AND lhs rhs) value =
      SetValue lhs value ++ SetValue rhs value) ∧
    (∀ value lhs rhs, SetValue (.BinaryExpression .TOK_OR lhs rhs) value =
      SetValue lhs value ++ SetValue rhs value) ∧
    (∀ value lhs rhs, SetValue (.BinaryExpression .TOK_ADD lhs rhs) value =
      SetValue lhs value ++ SetValue rhs value) ∧
    (∀ value inner, SetValue (.UnaryExpression .TOK_NOT inner) value =
      SetValue inner (1 - value)) :=
  ⟨fun _ _ _ => rfl, fun _ _ _ => rfl, fun _ _ _ => rfl, fun _ _ => rfl⟩

/-- Claim C5: an unresolved `ControlExpression` reads `0`, performs no write,
and `Parser::Atom` returns `Successful` on every `TOK_CONTROL` token no
matter what the finder resolves the qualifier to, so an unresolved reference
is embedded inside a `Successful` tree (shown concretely for
`` `Nonexistent` `` with a finder resolving nothing). -/
theorem c5_unresolved_reference_neutral :
    (∀ q, GetValue (.ControlExpression q none) = 0) ∧
    (∀ q value, SetValue (.ControlExpression q none) value = []) ∧
    (∀ f fuel q rest, (Parsers f (fuel + 1)).Atom (⟨.TOK_CONTROL, q⟩ :: rest) =
      ((.Successful, some (.ControlExpression q (FindControl f q))), rest)) ∧
    ParseExpression emptyFinder "`Nonexistent`".toList =
      (.Successful,
       some (.ControlExpression ⟨false, [], "Nonexistent".toList⟩ none)) :=
  ⟨fun _ => rfl, fun _ _ => rfl, fun _ _ _ _ => rfl, by decide⟩

section BacktickLemmas

/-- Scanning with the colon delimiter stops at a colon, returning the text
before it and the input after it. -/
theorem FetchBacktickString_colon (xs rest : List Char)
    (h1 : backtickChar ∉ xs) (h2 : ':' ∉ xs) :
    FetchBacktickString (some ':') (xs ++ ':' :: rest) = (true, xs, rest) := by
  induction xs with
  | nil => simp [FetchBacktickString, show (':' : Char) ≠ backtickChar by decide]
  | cons c xs ih =>
    simp only [List.mem_cons, not_or] at h1 h2
    simp [FetchBacktickString, Ne.symm h1.1, Ne.symm h2.1, ih h1.2 h2.2]

/-- Scanning with the colon delimiter stops at a backtick when no colon
comes first, returning the text before it and the input after it. -/
theorem FetchBacktickString_colon_tick (xs rest : List Char)
    (h1 : backtickChar ∉ xs) (h2 : ':' ∉ xs) :
    FetchBacktickString (some ':') (xs ++ backtickChar :: rest) =
      (false, xs, rest) := by
  induction xs with
  | nil => simp [FetchBacktickString]
  | cons c xs ih =>
    simp only [List.mem_cons, not_or] at h1 h2
    simp [FetchBacktickString, Ne.symm h1.1, Ne.symm h2.1, ih h1.2 h2.2]

/-- Scanning with no extra delimiter stops at a backtick. -/
theorem FetchBacktickString_none_tick (xs rest : List Char)
    (h1 : backtickChar ∉ xs) :
    FetchBacktickString none (xs ++ backtickChar :: rest) =
      (false, xs, rest) := by
  induction xs with
  | nil => simp [FetchBacktickString]
  | cons c xs ih =>
    simp only [List.mem_cons, not_or] at h1
    simp [FetchBacktickString, Ne.symm h1.1, ih h1.2]

/-- Scanning with the colon delimiter tolerates a missing terminator: at end
of input it yields everything collected so far. -/
theorem FetchBacktickString_colon_end (xs : List Char)
    (h1 : backtickChar ∉ xs) (h2 : ':' ∉ xs) :
    FetchBacktickString (some ':') xs = (false, xs, []) := by
  induction xs with
  | nil => simp [FetchBacktickString]
  | cons c xs ih =>
    simp only [List.mem_cons, not_or] at h1 h2
    simp [FetchBacktickString, Ne.symm h1.1, Ne.symm h2.1, ih h1.2 h2.2]

/-- Scanning with no extra delimiter tolerates a missing terminator. -/
theorem FetchBacktickString_none_end (xs : List Char)
    (h1 : backtickChar ∉ xs) :
    FetchBacktickString none xs = (false, xs, []) := by
  induction xs with
  | nil => simp [FetchBacktickString]
  | cons c xs ih =>
    simp only [List.mem_cons, not_or] at h1
    simp [FetchBacktickString, Ne.symm h1.1, ih h1.2]

/-- After an opening backtick, `NextToken` dispatches to
`GetFullyQualifiedControl`. -/
theorem NextToken_backtick (s : List Char) :
    NextToken (backtickChar :: s) = GetFullyQualifiedControl s := rfl

end BacktickLemmas

/-- Claim C9: a backtick-quoted token with a colon splits into device
identity (with `has_device` set) and control name; without a colon the whole
quoted text is the control name and `has_device` stays `false`; and when the
input ends before a closing backtick the text collected so far still becomes
a `TOK_CONTROL` token (with or without a device part), never `TOK_INVALID`. -/
theorem c9_backtick_scanning :
    (∀ dev name rest, ':' ∉ dev → backtickChar ∉ dev → backtickChar ∉ name →
      NextToken (backtickChar :: (dev ++ ':' :: (name ++ backtickChar :: rest))) =
        (⟨.TOK_CONTROL, ⟨true, dev, name⟩⟩, rest)) ∧
    (∀ name rest, ':' ∉ name → backtickChar ∉ name →
      NextToken (backtickChar :: (name ++ backtickChar :: rest)) =
        (⟨.TOK_CONTROL, ⟨false, [], name⟩⟩, rest)) ∧
    (∀ name, ':' ∉ name → backtickChar ∉ name →
      NextToken (backtickChar :: name) =
        (⟨.TOK_CONTROL, ⟨false, [], name⟩⟩, [])) ∧
    (∀ dev name, ':' ∉ dev → backtickChar ∉ dev → backtickChar ∉ name →
      NextToken (backtickChar :: (dev ++ ':' :: name)) =
        (⟨.TOK_CONTROL, ⟨true, dev, name⟩⟩, [])) := by
  refine ⟨?_, ?_, ?_, ?_⟩
  · intro dev name rest hd1 hd2 hn
    rw [NextToken_backtick]
    simp [GetFullyQualifiedControl, FetchBacktickString_colon dev _ hd2 hd1,
      FetchBacktickString_none_tick name rest hn]
  · intro name rest h1 h2
    rw [NextToken_backtick]
    simp [GetFullyQualifiedControl, FetchBacktickString_colon_tick name rest h2 h1]
  · intro name h1 h2
    rw [NextToken_backtick]
    simp [GetFullyQualifiedControl, FetchBacktickString_colon_end name h2 h1]
  · intro dev name hd1 hd2 hn
    rw [NextToken_backtick]
    simp [GetFullyQualifiedControl, FetchBacktickString_colon dev _ hd2 hd1,
      FetchBacktickString_none_end name hn]

/-- Closed instance for C9: the four backtick-scanning shapes at concrete
inputs (`` `DS:Pad`x ``, `` `Pad`x ``, `` `Pad ``, `` `DS:Pad ``). -/
theorem c9_witness :
    NextToken (backtickChar :: ("DS".toList ++ ':' :: ("Pad".toList ++ backtickChar :: ['x']))) =
      (⟨.TOK_CONTROL, ⟨true, "DS".toList, "Pad".toList⟩⟩, ['x']) ∧
    NextToken (backtickChar :: ("Pad".toList ++ backtickChar :: ['x'])) =
      (⟨.TOK_CONTROL, ⟨false, [], "Pad".toList⟩⟩, ['x']) ∧
    NextToken (backtickChar :: "Pad".toList) =
      (⟨.TOK_CONTROL, ⟨false, [], "Pad".toList⟩⟩, []) ∧
    NextToken (backtickChar :: ("DS".toList ++ ':' :: "Pad".toList)) =
      (⟨.TOK_CONTROL, ⟨true, "DS".toList, "Pad".toList⟩⟩, []) :=
  ⟨c9_backtick_scanning.1 _ _ _ (by decide) (by decide) (by decide),
   c9_backtick_scanning.2.1 _ _ (by decide) (by decide),
   c9_backtick_scanning.2.2.1 _ (by decide) (by decide),
   c9_backtick_scanning.2.2.2 _ _ (by decide) (by decide) (by decide)⟩

/-- Claim C6: binary operators are consumed left-associatively in a single
precedence tier (`a op1 b op2 c` always becomes `(a op1 b) op2 c`, for any
mix of AND/OR/ADD); NOT wraps exactly the atom after it (a control or a
parenthesized group), and `!!a` is a syntax error because NOT cannot apply
to a unary subexpression. -/
theorem c6_precedence_and_unary_binding :
    (∀ (f : ControlFinder) a b c op1 op2,
      IsBinaryToken op1 = true → IsBinaryToken op2 = true →
      ParseTokens f [⟨.TOK_CONTROL, a⟩, mkToken op1, ⟨.TOK_CONTROL, b⟩,
          mkToken op2, ⟨.TOK_CONTROL, c⟩, mkToken .TOK_EOF] =
        ((.Successful, some (.BinaryExpression op2
            (.BinaryExpression op1
              (.ControlExpression a (FindControl f a))
              (.ControlExpression b (FindControl f b)))
            (.ControlExpression c (FindControl f c)))),
         [mkToken .TOK_EOF])) ∧
    (∀ (f : ControlFinder) a b op, IsBinaryToken op = true →
      ParseTokens f [mkToken .TOK_NOT, ⟨.TOK_CONTROL, a⟩, mkToken op,
          ⟨.TOK_CONTROL, b⟩, mkToken .TOK_EOF] =
        ((.Successful, some (.BinaryExpression op
            (.UnaryExpression .TOK_NOT (.ControlExpression a (FindControl f a)))
            (.ControlExpression b (FindControl f b)))),
         [mkToken .TOK_EOF])) ∧
    (∀ (f : ControlFinder) a b op, IsBinaryToken op = true →
      ParseTokens f [mkToken .TOK_NOT, mkToken .TOK_LPAREN, ⟨.TOK_CONTROL, a⟩,
          mkToken op, ⟨.TOK_CONTROL, b⟩, mkToken .TOK_RPAREN, mkToken .TOK_EOF] =
        ((.Successful, some (.UnaryExpression .TOK_NOT
            (.BinaryExpression op
              (.ControlExpression a (FindControl f a))
              (.ControlExpression b (FindControl f b))))),
         [mkToken .TOK_EOF])) ∧
    (∀ (f : ControlFinder) a,
      ParseTokens f [mkToken .TOK_NOT, mkToken .TOK_NOT, ⟨.TOK_CONTROL, a⟩,
          mkToken .TOK_EOF] =
        ((.SyntaxError, none), [⟨.TOK_CONTROL, a⟩, mkToken .TOK_EOF])) := by
  refine ⟨?_, ?_, ?_, ?_⟩
  · intro f a b c op1 op2 h1 h2
    cases op1 <;> cases op2 <;> simp_all [IsBinaryToken] <;> rfl
  · intro f a b op h
    cases op <;> simp_all [IsBinaryToken] <;> rfl
  · intro f a b op h
    cases op <;> simp_all [IsBinaryToken] <;> rfl
  · intro f a
    rfl

/-- Closed instance for C6: concrete parses for `a & b + c`, `!a & b`,
`!(a & b)` and `!!a` through the finder with no devices. -/
theorem c6_witness :
    ParseTokens emptyFinder [⟨.TOK_CONTROL, ⟨false, [], ['a']⟩⟩,
        mkToken .TOK_AND, ⟨.TOK_CONTROL, ⟨false, [], ['b']⟩⟩,
        mkToken .TOK_ADD, ⟨.TOK_CONTROL, ⟨false, [], ['c']⟩⟩,
        mkToken .TOK_EOF] =
      ((.Successful, some (.BinaryExpression .TOK_ADD
          (.BinaryExpression .TOK_AND
            (.ControlExpression ⟨false, [], ['a']⟩ none)
            (.ControlExpression ⟨false, [], ['b']⟩ none))
          (.ControlExpression ⟨false, [], ['c']⟩ none))),
       [mkToken .TOK_EOF]) ∧
    ParseTokens emptyFinder [mkToken .TOK_NOT,
        ⟨.TOK_CONTROL, ⟨false, [], ['a']⟩⟩, mkToken .TOK_OR,
        ⟨.TOK_CONTROL, ⟨false, [], ['b']⟩⟩, mkToken .TOK_EOF] =
      ((.Successful, some (.BinaryExpression .TOK_OR
          (.UnaryExpression .TOK_NOT (.ControlExpression ⟨false, [], ['a']⟩ none))
          (.ControlExpression ⟨false, [], ['b']⟩ none))),
       [mkToken .TOK_EOF]) := by
  constructor
  · have h := c6_precedence_and_unary_binding.1 emptyFinder
      ⟨false, [], ['a']⟩ ⟨false, [], ['b']⟩ ⟨false, [], ['c']⟩
      .TOK_AND .TOK_ADD (by decide) (by decide)
    exact h
  · have h := c6_precedence_and_unary_binding.2.1 emptyFinder
      ⟨false, [], ['a']⟩ ⟨false, [], ['b']⟩ .TOK_OR (by decide)
    exact h

/-- Claim C10: once a complete expression has been parsed, the parser stops
without checking that the rest of the input is consumed: a following
`TOK_CONTROL` or `TOK_RPAREN` (and everything after it) is silently left
unread and the result is `Successful`; concretely, `a b` and `a ) b` both
parse Successfully as just the control `a`. -/
theorem c10_trailing_tokens_ignored :
    (∀ (f : ControlFinder) fuel a b rem,
      (Parsers f (fuel + 4)).Toplevel (⟨.TOK_CONTROL, a⟩ :: ⟨.TOK_CONTROL, b⟩ :: rem) =
        ((.Successful, some (.ControlExpression a (FindControl f a))),
         ⟨.TOK_CONTROL, b⟩ :: rem)) ∧
    (∀ (f : ControlFinder) fuel a rem,
      (Parsers f (fuel + 4)).Toplevel (⟨.TOK_CONTROL, a⟩ :: mkToken .TOK_RPAREN :: rem) =
        ((.Successful, some (.ControlExpression a (FindControl f a))),
         mkToken .TOK_RPAREN :: rem)) ∧
    ParseExpression emptyFinder "a b".toList =
      (.Successful, some (.ControlExpression ⟨false, [], ['a']⟩ none)) ∧
    ParseExpression emptyFinder "a ) b".toList =
      (.Successful, some (.ControlExpression ⟨false, [], ['a']⟩ none)) :=
  ⟨fun _ _ _ _ _ => rfl, fun _ _ _ _ => rfl, by decide, by decide⟩

/-- A finder whose default device resolves exactly the input-control name
`A B` (used to separate trimmed from untrimmed fast-path lookups). -/
def trimFinder : ControlFinder :=
  ⟨fun _ => some ⟨fun n => if n = "A B".toList then some ⟨1, 0⟩ else none,
                  fun _ => none⟩,
   [], true⟩

/-- Counterexample to C3: on input `" A B "` the trimmed text `"A B"`
resolves to a live control, yet `ParseExpression` does not return the
claimed fast-path node for the trimmed text — the fast path looked up the
untrimmed string `" A B "`, failed, and fell through to the grammar, which
produced the unresolved single control `A` instead. -/
theorem c3_counterexample :
    FindControl trimFinder ⟨false, [], StripSpaces " A B ".toList⟩ = some ⟨1, 0⟩ ∧
    ParseExpression trimFinder " A B ".toList =
      (.Successful, some (.ControlExpression ⟨false, [], ['A']⟩ none)) ∧
    (some (Expression.ControlExpression ⟨false, [], StripSpaces " A B ".toList⟩
        (some ⟨1, 0⟩)) ≠
      some (Expression.ControlExpression ⟨false, [], ['A']⟩ none)) := by
  refine ⟨by decide, by decide, by decide⟩

/-- Claim C3 as amended: the legacy fast path treats the entire input text
as-is (untrimmed) as a bareword control name with `has_device = false`
(hence resolved against the finder's default device); whenever that lookup
finds a control, `ParseExpression` returns `Successful` with that single
`ControlExpression`, bypassing the lexer and parser entirely — for any
input text whatsoever, including text that would tokenize into several
tokens or contain unlexable characters. -/
theorem c3_fast_path_amended (f : ControlFinder) (s : List Char)
    (control : Control)
    (h : FindControl f ⟨false, [], s⟩ = some control) :
    ParseExpression f s =
      (.Successful, some (.ControlExpression ⟨false, [], s⟩ (some control))) := by
  simp [ParseExpression, h]

/-- A finder whose default device resolves exactly the input-control name
`a $ b` — a name with whitespace and a character the lexer rejects. -/
def fastPathFinder : ControlFinder :=
  ⟨fun _ => some ⟨fun n => if n = "a $ b".toList then some ⟨7, 1⟩ else none,
                  fun _ => none⟩,
   [], true⟩

/-- Closed instance for the amended C3: the unlexable name `a $ b` resolves
through the fast path. -/
theorem c3_witness :
    FindControl fastPathFinder ⟨false, [], "a $ b".toList⟩ = some ⟨7, 1⟩ ∧
    ParseExpression fastPathFinder "a $ b".toList =
      (.Successful,
       some (.ControlExpression ⟨false, [], "a $ b".toList⟩ (some ⟨7, 1⟩))) :=
  ⟨by decide, c3_fast_path_amended fastPathFinder _ _ (by decide)⟩

section RerenderLemmas

/-- An element on which the predicate fails survives `dropWhile`. -/
theorem mem_dropWhile_of_mem {α : Type} (p : α → Bool) (a : α) :
    ∀ l : List α, a ∈ l → p a = false → a ∈ l.dropWhile p := by
  intro l hl hp
  induction l with
  | nil => cases hl
  | cons c l ih =>
    by_cases hc : p c
    · rw [List.dropWhile_cons_of_pos hc]
      rcases List.mem_cons.mp hl with h | h
      · subst h; rw [hp] at hc; cases hc
      · exact ih h
    · rw [List.dropWhile_cons_of_neg hc]
      exact hl

/-- A string containing a non-whitespace character does not trim to the
empty string. -/
theorem StripSpaces_ne_nil (s : List Char) (a : Char) (ha : a ∈ s)
    (hp : (a == ' ' || a == '\t' || a == '\n' || a == '\r') = false) :
    StripSpaces s ≠ [] := by
  unfold StripSpaces
  intro h
  have h1 := mem_dropWhile_of_mem
    (fun c => c == ' ' || c == '\t' || c == '\n' || c == '\r') a s ha hp
  have h2 := List.mem_reverse.mpr h1
  have h3 := mem_dropWhile_of_mem
    (fun c => c == ' ' || c == '\t' || c == '\n' || c == '\r') a _ h2 hp
  have h4 := List.mem_reverse.mpr h3
  rw [h] at h4
  cases h4

/-- `NextToken` on a well-terminated backtick quotation with no device
part. -/
theorem NextToken_quoted (name rest : List Char)
    (h1 : ':' ∉ name) (h2 : backtickChar ∉ name) :
    NextToken (backtickChar :: (name ++ backtickChar :: rest)) =
      (⟨.TOK_CONTROL, ⟨false, [], name⟩⟩, rest) := by
  rw [NextToken_backtick]
  simp [GetFullyQualifiedControl, FetchBacktickString_colon_tick name rest h2 h1]

/-- One `Tokenize` loop iteration on a control token. -/
theorem TokenizeLoop_control_step (fuel : Nat) (s rest : List Char)
    (q : ControlQualifier)
    (hNT : NextToken s = (⟨.TOK_CONTROL, q⟩, rest)) :
    TokenizeLoop (fuel + 1) s =
      match TokenizeLoop fuel rest with
      | (.Successful, toks) => (.Successful, ⟨.TOK_CONTROL, q⟩ :: toks)
      | (st, toks) => (st, toks) := by
  simp [TokenizeLoop, hNT]

/-- `Tokenize`'s loop on an exhausted input yields the EOF token. -/
theorem TokenizeLoop_nil (fuel : Nat) :
    TokenizeLoop (fuel + 1) [] = (.Successful, [mkToken .TOK_EOF]) := rfl

/-- Tokenizing a single well-terminated backtick quotation. -/
theorem Tokenize_single_quoted (name : List Char)
    (h1 : ':' ∉ name) (h2 : backtickChar ∉ name) :
    Tokenize (backtickChar :: (name ++ [backtickChar])) =
      (.Successful, [⟨.TOK_CONTROL, ⟨false, [], name⟩⟩, mkToken .TOK_EOF]) := by
  unfold Tokenize
  have h3 : (backtickChar :: (name ++ [backtickChar])).length + 1 =
      name.length + 2 + 1 := by
    simp [List.length_cons, List.length_append]
  rw [h3]
  rw [TokenizeLoop_control_step _ _ _ _ (NextToken_quoted name [] h1 h2)]
  rw [show name.length + 2 = (name.length + 1) + 1 from rfl]
  rw [TokenizeLoop_nil]

/-- Parsing the token sequence of a single control reference. -/
theorem Toplevel_control_eof (f : ControlFinder) (q : ControlQualifier)
    (fuel : Nat) :
    (Parsers f (fuel + 4)).Toplevel [⟨.TOK_CONTROL, q⟩, mkToken .TOK_EOF] =
      ((.Successful, some (.ControlExpression q (FindControl f q))),
       [mkToken .TOK_EOF]) := rfl

/-- `ParseTokens` on the token sequence of a single control reference. -/
theorem ParseTokens_control_eof (f : ControlFinder) (q : ControlQualifier) :
    ParseTokens f [⟨.TOK_CONTROL, q⟩, mkToken .TOK_EOF] =
      ((.Successful, some (.ControlExpression q (FindControl f q))),
       [mkToken .TOK_EOF]) :=
  Toplevel_control_eof f q 12

end RerenderLemmas

/-- Counterexample to C7: the source `!a` parses Successfully and renders as
`Not(`a`)`, but re-parsing that rendered text (under the finder with no
devices) yields the single bareword control `Not` — the `(`, `` `a` ``, `)`
tokens are trailing input the parser ignores — so the second render is
`` `Not` ``, not the first render.  Render–reparse–render is not the
identity on first renders. -/
theorem c7_counterexample :
    ParseExpression emptyFinder "!a".toList =
      (.Successful, some (.UnaryExpression .TOK_NOT
        (.ControlExpression ⟨false, [], ['a']⟩ none))) ∧
    ExpressionToString (.UnaryExpression .TOK_NOT
        (.ControlExpression ⟨false, [], ['a']⟩ none)) = "Not(`a`)".toList ∧
    ParseExpression emptyFinder "Not(`a`)".toList =
      (.Successful, some (.ControlExpression ⟨false, [], "Not".toList⟩ none)) ∧
    ExpressionToString (.ControlExpression ⟨false, [], "Not".toList⟩ none) =
      "`Not`".toList ∧
    "`Not`".toList ≠ "Not(`a`)".toList := by
  refine ⟨by decide, by decide, by decide, by decide, by decide⟩

/-- A character that the lexer cannot start a token with: not whitespace,
not one of the single-character operators or parentheses, not a backtick and
not alphabetic (the `default` branch of `Lexer::NextToken` with
`isalpha` false). -/
def IsInvalidChar (c : Char) : Bool :=
  !(c == ' ' || c == '\t' || c == '\n' || c == '\r' || c == '(' || c == ')' ||
    c == '&' || c == '|' || c == '!' || c == '+' || c == backtickChar ||
    c.isAlpha)

section InvalidCharLemmas

/-- `NextToken` yields `TOK_INVALID` exactly at an invalid character. -/
theorem NextToken_invalid (c : Char) (s : List Char)
    (hc : IsInvalidChar c = true) :
    NextToken (c :: s) = (mkToken .TOK_INVALID, s) := by
  simp only [IsInvalidChar, Bool.not_eq_true', Bool.or_eq_false_iff] at hc
  obtain ⟨⟨⟨⟨⟨⟨⟨⟨⟨⟨⟨h1, h2⟩, h3⟩, h4⟩, h5⟩, h6⟩, h7⟩, h8⟩, h9⟩, h10⟩, h11⟩, h12⟩ := hc
  simp [NextToken, h1, h2, h3, h4, h5, h6, h7, h8, h9, h10, h11, h12]

/-- An invalid character is not whitespace. -/
theorem IsInvalidChar_not_space (c : Char) (hc : IsInvalidChar c = true) :
    (c == ' ' || c == '\t' || c == '\n' || c == '\r') = false := by
  simp only [IsInvalidChar, Bool.not_eq_true', Bool.or_eq_false_iff] at hc
  obtain ⟨⟨⟨⟨⟨⟨⟨⟨⟨⟨⟨h1, h2⟩, h3⟩, h4⟩, h5⟩, h6⟩, h7⟩, h8⟩, h9⟩, h10⟩, h11⟩, h12⟩ := hc
  simp [h1, h2, h3, h4]

/-- An invalid character is not alphabetic. -/
theorem IsInvalidChar_not_alpha (c : Char) (hc : IsInvalidChar c = true) :
    c.isAlpha = false := by
  simp only [IsInvalidChar, Bool.not_eq_true', Bool.or_eq_false_iff] at hc
  exact hc.2

/-- Whatever its fuel and input, when the `Tokenize` loop reports an error
it reports no tokens: `tokens.clear()` discards everything collected. -/
theorem TokenizeLoop_error_empty :
    ∀ fuel s st toks, TokenizeLoop fuel s = (st, toks) →
      st ≠ .Successful → toks = [] := by
  intro fuel
  induction fuel with
  | zero =>
    intro s st toks h hne
    simp only [TokenizeLoop] at h
    injection h with h1 h2
    exact h2.symm
  | succ fuel ih =>
    intro s st toks h hne
    simp only [TokenizeLoop] at h
    rcases hnt : NextToken s with ⟨tok, rest⟩
    rw [hnt] at h
    obtain ⟨ty, q⟩ := tok
    cases ty
    case TOK_DISCARD => exact ih rest st toks h hne
    case TOK_INVALID =>
      injection h with h1 h2
      exact h2.symm
    case TOK_EOF =>
      injection h with h1 h2
      exact absurd h1.symm hne
    all_goals
      rcases hrec : TokenizeLoop fuel rest with ⟨st2, toks2⟩
      rw [hrec] at h
      cases st2
      case Successful =>
        injection h with h1 h2
        exact absurd h1.symm hne
      case SyntaxError =>
        injection h with h1 h2
        exact h2 ▸ ih rest .SyntaxError toks2 hrec (by simp)
      case EmptyExpression =>
        injection h with h1 h2
        exact h2 ▸ ih rest .EmptyExpression toks2 hrec (by simp)

/-- The colon-delimited scan over a backtick-closed segment either stops at the
backtick (no colon first) or stops at an earlier colon, leaving a
backtick-closed remainder. -/
theorem fetch_colon_split (xs rest : List Char) (h : backtickChar ∉ xs) :
    FetchBacktickString (some ':') (xs ++ backtickChar :: rest) =
      (false, xs, rest) ∨
    (∃ pre post, xs = pre ++ ':' :: post ∧ backtickChar ∉ post ∧
      FetchBacktickString (some ':') (xs ++ backtickChar :: rest) =
        (true, pre, post ++ backtickChar :: rest)) := by
  induction xs with
  | nil => left; simp [FetchBacktickString]
  | cons d xs ih =>
    simp only [List.mem_cons, not_or] at h
    by_cases hd : d = ':'
    · subst hd
      right
      exact ⟨[], xs, rfl, h.2,
        by simp [FetchBacktickString, show (':' : Char) ≠ backtickChar by decide]⟩
    · rcases ih h.2 with hleft | ⟨pre, post, heq, hpost, hf⟩
      · left
        simp [FetchBacktickString, Ne.symm h.1, hd, hleft]
      · right
        refine ⟨d :: pre, post, by rw [heq, List.cons_append], hpost, ?_⟩
        simp [FetchBacktickString, Ne.symm h.1, hd, hf]

/-- A backtick-quoted token always ends at the first unconsumed backtick:
whatever text precedes it (colon or not), `GetFullyQualifiedControl`
produces a `TOK_CONTROL` token and leaves exactly the input after that
backtick. -/
theorem GetFullyQualifiedControl_closes (r₁ rest : List Char)
    (h : backtickChar ∉ r₁) :
    ∃ q, GetFullyQualifiedControl (r₁ ++ backtickChar :: rest) =
      (⟨.TOK_CONTROL, q⟩, rest) := by
  rcases fetch_colon_split r₁ rest h with hleft | ⟨pre, post, heq, hpost, hf⟩
  · exact ⟨⟨false, [], r₁⟩, by simp [GetFullyQualifiedControl, hleft]⟩
  · refine ⟨⟨true, pre, post⟩, ?_⟩
    simp [GetFullyQualifiedControl, hf,
      FetchBacktickString_none_tick post rest hpost]

/-- First-occurrence decomposition of a list around a member. -/
theorem mem_first_split {α : Type} [DecidableEq α] (a : α) :
    ∀ l : List α, a ∈ l → ∃ l₁ l₂, l = l₁ ++ a :: l₂ ∧ a ∉ l₁ := by
  intro l hl
  induction l with
  | nil => cases hl
  | cons c r ih =>
    by_cases hca : c = a
    · subst hca
      exact ⟨[], r, rfl, by simp⟩
    · have har : a ∈ r := by
        rcases List.mem_cons.mp hl with h | h
        · exact absurd h.symm hca
        · exact h
      obtain ⟨l₁, l₂, heq, hnot⟩ := ih har
      refine ⟨c :: l₁, l₂, by rw [heq, List.cons_append], ?_⟩
      simp only [List.mem_cons, not_or]
      exact ⟨fun h => hca h.symm, hnot⟩

/-- Dropping a prefix before a character on which the predicate fails stops
no later than that character. -/
theorem dropWhile_append_stop (p : Char → Bool) (c : Char) (hp : p c = false) :
    ∀ (l s : List Char),
      (l ++ c :: s).dropWhile p = l.dropWhile p ++ c :: s := by
  intro l s
  induction l with
  | nil => simp [List.dropWhile_cons, hp]
  | cons d l ih =>
    by_cases hd : p d
    · simp [List.dropWhile_cons, hd, ih]
    · simp [List.dropWhile_cons, hd]

/-- The alphabetic prefix taken by a bareword contains no backtick, so
dropping it preserves the backtick count. -/
theorem count_dropWhile_alpha (r : List Char) :
    (r.dropWhile Char.isAlpha).count backtickChar = r.count backtickChar := by
  conv_rhs => rw [← List.takeWhile_append_dropWhile (p := Char.isAlpha) (l := r)]
  rw [List.count_append]
  have : (r.takeWhile Char.isAlpha).count backtickChar = 0 := by
    rw [List.count_eq_zero]
    intro hmem
    have := List.mem_takeWhile_imp hmem
    simp [backtickChar] at this
  omega

/-- A `Tokenize` loop iteration that pushes an ordinary token propagates an
inner `SyntaxError`-with-no-tokens outcome unchanged. -/
theorem TokenizeLoop_push_step (g : Nat) (s rest : List Char) (tok : Token)
    (hnt : NextToken s = (tok, rest))
    (h1 : tok.type ≠ .TOK_DISCARD) (h2 : tok.type ≠ .TOK_INVALID)
    (h3 : tok.type ≠ .TOK_EOF)
    (hrec : TokenizeLoop g rest = (.SyntaxError, [])) :
    TokenizeLoop (g + 1) s = (.SyntaxError, []) := by
  simp only [TokenizeLoop, hnt]
  rcases tok with ⟨ty, q⟩
  cases ty
  case TOK_DISCARD => exact absurd rfl h1
  case TOK_INVALID => exact absurd rfl h2
  case TOK_EOF => exact absurd rfl h3
  all_goals simp [hrec]

/-- A `Tokenize` loop iteration on whitespace skips the DISCARD token. -/
theorem TokenizeLoop_discard_step (g : Nat) (s rest : List Char)
    (hnt : NextToken s = (mkToken .TOK_DISCARD, rest)) :
    TokenizeLoop (g + 1) s = TokenizeLoop g rest := by
  simp [TokenizeLoop, hnt, mkToken]

/-- Prepending a non-backtick character leaves the backtick count alone. -/
theorem count_cons_ne (x : Char) (r : List Char) (hxb : x ≠ backtickChar) :
    (x :: r).count backtickChar = r.count backtickChar := by
  rw [List.count_cons]
  simp [hxb, Ne.symm hxb]

/-- Core of the INVALID-abort claim: scanning any prefix `s₁` whose
backticks are balanced (even count) and then hitting an invalid character
makes the whole tokenization fail with `SyntaxError` and no tokens. -/
theorem TokenizeLoop_invalid_after (c : Char) (s₂ : List Char)
    (hc : IsInvalidChar c = true) :
    ∀ n s₁ fuel, s₁.length ≤ n → s₁.length < fuel →
      Even (s₁.count backtickChar) →
      TokenizeLoop fuel (s₁ ++ c :: s₂) = (.SyntaxError, []) := by
  intro n
  induction n with
  | zero =>
    intro s₁ fuel hlen hfuel heven
    have hnil : s₁ = [] := List.length_eq_zero.mp (Nat.le_zero.mp hlen)
    subst hnil
    cases fuel with
    | zero => simp at hfuel
    | succ g => simp [TokenizeLoop, NextToken_invalid c s₂ hc, mkToken]
  | succ n ih =>
    intro s₁ fuel hlen hfuel heven
    cases s₁ with
    | nil =>
      cases fuel with
      | zero => simp at hfuel
      | succ g => simp [TokenizeLoop, NextToken_invalid c s₂ hc, mkToken]
    | cons x r =>
      cases fuel with
      | zero => simp at hfuel
      | succ g =>
        have hrn : r.length ≤ n := by simpa using hlen
        have hgf : r.length < g := by simpa using hfuel
        rw [List.cons_append]
        by_cases hx1 : (x == ' ' || x == '\t' || x == '\n' || x == '\r') = true
        · -- whitespace: the DISCARD token is skipped
          simp only [Bool.or_eq_true, beq_iff_eq] at hx1
          have hxb : x ≠ backtickChar := by
            rcases hx1 with ((h | h) | h) | h <;> rw [h] <;> decide
          have heven' : Even (r.count backtickChar) := by
            rwa [count_cons_ne x r hxb] at heven
          have hnt : NextToken (x :: (r ++ c :: s₂)) =
              (mkToken .TOK_DISCARD, r ++ c :: s₂) := by
            rcases hx1 with ((h | h) | h) | h <;> rw [h] <;> rfl
          rw [TokenizeLoop_discard_step g _ _ hnt]
          exact ih r g hrn hgf heven'
        · by_cases hx2 : x = '('
          · subst hx2
            have heven' : Even (r.count backtickChar) := by
              rwa [count_cons_ne _ r (by decide)] at heven
            exact TokenizeLoop_push_step g _ _ (mkToken .TOK_LPAREN) rfl
              (by decide) (by decide) (by decide) (ih r g hrn hgf heven')
          · by_cases hx3 : x = ')'
            · subst hx3
              have heven' : Even (r.count backtickChar) := by
                rwa [count_cons_ne _ r (by decide)] at heven
              exact TokenizeLoop_push_step g _ _ (mkToken .TOK_RPAREN) rfl
                (by decide) (by decide) (by decide) (ih r g hrn hgf heven')
            · by_cases hx4 : x = '&'
              · subst hx4
                have heven' : Even (r.count backtickChar) := by
                  rwa [count_cons_ne _ r (by decide)] at heven
                exact TokenizeLoop_push_step g _ _ (mkToken .TOK_AND) rfl
                  (by decide) (by decide) (by decide) (ih r g hrn hgf heven')
              · by_cases hx5 : x = '|'
                · subst hx5
                  have heven' : Even (r.count backtickChar) := by
                    rwa [count_cons_ne _ r (by decide)] at heven
                  exact TokenizeLoop_push_step g _ _ (mkToken .TOK_OR) rfl
                    (by decide) (by decide) (by decide) (ih r g hrn hgf heven')
                · by_cases hx6 : x = '!'
                  · subst hx6
                    have heven' : Even (r.count backtickChar) := by
                      rwa [count_cons_ne _ r (by decide)] at heven
                    exact TokenizeLoop_push_step g _ _ (mkToken .TOK_NOT) rfl
                      (by decide) (by decide) (by decide) (ih r g hrn hgf heven')
                  · by_cases hx7 : x = '+'
                    · subst hx7
                      have heven' : Even (r.count backtickChar) := by
                        rwa [count_cons_ne _ r (by decide)] at heven
                      exact TokenizeLoop_push_step g _ _ (mkToken .TOK_ADD) rfl
                        (by decide) (by decide) (by decide) (ih r g hrn hgf heven')
                    · by_cases hx8 : x = backtickChar
                      · -- backtick: the quoted token ends at the next backtick,
                        -- which exists because the count is even
                        subst hx8
                        have hodd : ¬ Even (r.count backtickChar) := by
                          have hcc : (backtickChar :: r).count backtickChar =
                              r.count backtickChar + 1 := by
                            rw [List.count_cons]
                            simp
                          rw [hcc] at heven
                          exact Nat.even_add_one.mp heven
                        have hmem : backtickChar ∈ r := by
                          by_contra hmem
                          rw [List.count_eq_zero.mpr hmem] at hodd
                          exact hodd even_zero
                        obtain ⟨r₁, r₂, heq, hnot⟩ := mem_first_split backtickChar r hmem
                        have hlen2 : r.length = r₁.length + r₂.length + 1 := by
                          rw [heq]
                          simp [List.length_append]
                          omega
                        have heven' : Even (r₂.count backtickChar) := by
                          have hcnt : r.count backtickChar = r₂.count backtickChar + 1 := by
                            rw [heq, List.count_append, List.count_eq_zero.mpr hnot,
                              List.count_cons]
                            simp
                          rw [hcnt] at hodd
                          exact not_not.mp (fun hne => hodd (Nat.even_add_one.mpr hne))
                        obtain ⟨qx, hq⟩ :=
                          GetFullyQualifiedControl_closes r₁ (r₂ ++ c :: s₂) hnot
                        have hnt : NextToken (backtickChar :: (r ++ c :: s₂)) =
                            (⟨.TOK_CONTROL, qx⟩, r₂ ++ c :: s₂) := by
                          rw [NextToken_backtick]
                          have harr : r ++ c :: s₂ =
                              r₁ ++ backtickChar :: (r₂ ++ c :: s₂) := by
                            rw [heq]
                            simp [List.append_assoc]
                          rw [harr, hq]
                        exact TokenizeLoop_push_step g _ _ _ hnt
                          (by simp) (by simp) (by simp)
                          (ih r₂ g (by omega) (by omega) heven')
                      · by_cases hx9 : x.isAlpha = true
                        · -- bareword: the alphabetic run stops before `c`
                          have hxb : x ≠ backtickChar := hx8
                          have heven' :
                              Even ((r.dropWhile Char.isAlpha).count backtickChar) := by
                            rw [count_dropWhile_alpha]
                            rwa [count_cons_ne x r hxb] at heven
                          have hcalpha : c.isAlpha = false :=
                            IsInvalidChar_not_alpha c hc
                          have hx1' :
                              (x == ' ' || x == '\t' || x == '\n' || x == '\r') = false := by
                            simpa using hx1
                          have hnt : NextToken (x :: (r ++ c :: s₂)) =
                              (⟨.TOK_CONTROL,
                                ⟨false, [], x :: (r ++ c :: s₂).takeWhile Char.isAlpha⟩⟩,
                               (r ++ c :: s₂).dropWhile Char.isAlpha) := by
                            simp [NextToken, hx1', hx2, hx3, hx4, hx5, hx6, hx7, hx8,
                              hx9, GetBarewordsControl]
                          rw [dropWhile_append_stop Char.isAlpha c hcalpha r s₂] at hnt
                          exact TokenizeLoop_push_step g _ _ _ hnt
                            (by simp) (by simp) (by simp)
                            (ih (r.dropWhile Char.isAlpha) g
                              (le_trans (List.dropWhile_sublist _).length_le hrn)
                              (lt_of_le_of_lt (List.dropWhile_sublist _).length_le hgf)
                              heven')
                        · -- `x` is itself invalid: tokenization aborts right here
                          have hx1' :
                              (x == ' ' || x == '\t' || x == '\n' || x == '\r') = false := by
                            simpa using hx1
                          have hx9' : x.isAlpha = false := by
                            simpa using hx9
                          have hxinv : IsInvalidChar x = true := by
                            simp [IsInvalidChar, hx2, hx3, hx4, hx5, hx6, hx7, hx8, hx9',
                              Bool.or_eq_false_iff, hx1']
                          simp [TokenizeLoop, NextToken_invalid x _ hxinv, mkToken]

end InvalidCharLemmas

/-- Scanning a backtick-closed segment always reproduces its text as the
string form of the resulting qualifier: whether or not a colon splits it
into device and control parts, `ControlQualifierToString` of the scanned
qualifier is exactly the text between the backticks. -/
theorem GetFullyQualifiedControl_render (xs rest : List Char)
    (h : backtickChar ∉ xs) :
    ∃ q, GetFullyQualifiedControl (xs ++ backtickChar :: rest) =
        (⟨.TOK_CONTROL, q⟩, rest) ∧
      ControlQualifierToString q = xs := by
  rcases fetch_colon_split xs rest h with hleft | ⟨pre, post, heq, hpost, hf⟩
  · exact ⟨⟨false, [], xs⟩, by simp [GetFullyQualifiedControl, hleft], rfl⟩
  · refine ⟨⟨true, pre, post⟩, ?_, ?_⟩
    · simp [GetFullyQualifiedControl, hf,
        FetchBacktickString_none_tick post rest hpost]
    · rw [heq]
      rfl

/-- Tokenizing a single well-terminated backtick quotation of arbitrary
text: one control token whose qualifier renders back to that text. -/
theorem Tokenize_quoted (xs : List Char) (h : backtickChar ∉ xs) :
    ∃ q, Tokenize (backtickChar :: (xs ++ [backtickChar])) =
        (.Successful, [⟨.TOK_CONTROL, q⟩, mkToken .TOK_EOF]) ∧
      ControlQualifierToString q = xs := by
  obtain ⟨q, hg, hs⟩ := GetFullyQualifiedControl_render xs [] h
  refine ⟨q, ?_, hs⟩
  unfold Tokenize
  have h3 : (backtickChar :: (xs ++ [backtickChar])).length + 1 =
      xs.length + 2 + 1 := by
    simp [List.length_cons, List.length_append]
  rw [h3]
  have hnt : NextToken (backtickChar :: (xs ++ [backtickChar])) =
      (⟨.TOK_CONTROL, q⟩, []) := by
    rw [NextToken_backtick]
    exact hg
  rw [TokenizeLoop_control_step _ _ _ _ hnt]
  rw [show xs.length + 2 = (xs.length + 1) + 1 from rfl]
  rw [TokenizeLoop_nil]

/-- Claim C7 as amended: re-rendering is stable after the first render when
the parsed tree is a single control reference whose rendered qualifier
contains no backtick character and whose rendered text is not itself
resolved by the legacy fast path — with or without a device part, and
whatever colons the qualifier contains: rendering, re-parsing and rendering
again reproduces the first rendering.  For trees containing operator nodes
the property fails, as the canonical rendering is not re-parsed to the same
tree — see the counterexample. -/
theorem c7_rerender_stable_amended (f : ControlFinder) (s : List Char)
    (e : Expression) (q : ControlQualifier) (ctl : Option Control)
    (hparse : ParseExpression f s = (.Successful, some e))
    (he : e = .ControlExpression q ctl)
    (htick : backtickChar ∉ ControlQualifierToString q)
    (hfast : FindControl f ⟨false, [], ExpressionToString e⟩ = none) :
    ∃ e₂, ParseExpression f (ExpressionToString e) = (.Successful, some e₂) ∧
      ExpressionToString e₂ = ExpressionToString e := by
  subst he
  have hr : ExpressionToString (.ControlExpression q ctl) =
      backtickChar :: (ControlQualifierToString q ++ [backtickChar]) := rfl
  obtain ⟨q₂, htokq, hsq⟩ := Tokenize_quoted (ControlQualifierToString q) htick
  refine ⟨.ControlExpression q₂ (FindControl f q₂), ?_, ?_⟩
  · rw [hr] at hfast ⊢
    have hne : StripSpaces
        (backtickChar :: (ControlQualifierToString q ++ [backtickChar])) ≠ [] :=
      StripSpaces_ne_nil _ backtickChar (by simp) (by decide)
    simp only [ParseExpression]
    rw [hfast]
    simp only [ParseExpressionInner, if_neg hne]
    rw [htokq]
    show (ParseTokens f [⟨.TOK_CONTROL, q₂⟩, mkToken .TOK_EOF]).1 = _
    rw [ParseTokens_control_eof]
  · rw [hr]
    show backtickChar :: (ControlQualifierToString q₂ ++ [backtickChar]) = _
    rw [hsq]

/-- Closed instance for the amended C7: the bareword source `a` (leaf with
no device part) and the qualified source `` `DS:Pad` `` (leaf with a device
part) both render to text that re-parses and re-renders to the same text. -/
theorem c7_witness :
    (∃ e₂, ParseExpression emptyFinder
        (ExpressionToString (.ControlExpression ⟨false, [], ['a']⟩ none)) =
        (.Successful, some e₂) ∧
      ExpressionToString e₂ =
        ExpressionToString (.ControlExpression ⟨false, [], ['a']⟩ none)) ∧
    (∃ e₂, ParseExpression emptyFinder
        (ExpressionToString
          (.ControlExpression ⟨true, "DS".toList, "Pad".toList⟩ none)) =
        (.Successful, some e₂) ∧
      ExpressionToString e₂ =
        ExpressionToString
          (.ControlExpression ⟨true, "DS".toList, "Pad".toList⟩ none)) :=
  ⟨c7_rerender_stable_amended emptyFinder "a".toList
    (.ControlExpression ⟨false, [], ['a']⟩ none) ⟨false, [], ['a']⟩ none
    (by decide) rfl (by decide) (by decide),
   c7_rerender_stable_amended emptyFinder "`DS:Pad`".toList
    (.ControlExpression ⟨true, "DS".toList, "Pad".toList⟩ none)
    ⟨true, "DS".toList, "Pad".toList⟩ none
    (by decide) rfl (by decide) (by decide)⟩

/-- Claim C8: a character that is not an operator, parenthesis, whitespace,
backtick or alphabetic bareword character, reached outside a backtick-quoted
region (even number of backticks before it), makes `NextToken` produce
`TOK_INVALID` right there; tokenization aborts with `SyntaxError` and
discards every token collected so far (an error result always carries an
empty token list); and the grammar parse (`ParseExpressionInner`, and
`ParseExpression` whenever its legacy fast path does not resolve the whole
string) returns `SyntaxError` with no tree. -/
theorem c8_invalid_character_aborts :
    (∀ c s, IsInvalidChar c = true →
      NextToken (c :: s) = (mkToken .TOK_INVALID, s)) ∧
    (∀ fuel s st toks, TokenizeLoop fuel s = (st, toks) →
      st ≠ .Successful → toks = []) ∧
    (∀ s₁ (c : Char) s₂, Even (s₁.count backtickChar) → IsInvalidChar c = true →
      Tokenize (s₁ ++ c :: s₂) = (.SyntaxError, [])) ∧
    (∀ (f : ControlFinder) s₁ (c : Char) s₂, Even (s₁.count backtickChar) →
      IsInvalidChar c = true →
      ParseExpressionInner f (s₁ ++ c :: s₂) = (.SyntaxError, none)) ∧
    (∀ (f : ControlFinder) s₁ (c : Char) s₂, Even (s₁.count backtickChar) →
      IsInvalidChar c = true →
      FindControl f ⟨false, [], s₁ ++ c :: s₂⟩ = none →
      ParseExpression f (s₁ ++ c :: s₂) = (.SyntaxError, none)) := by
  have htok : ∀ s₁ (c : Char) s₂, Even (s₁.count backtickChar) →
      IsInvalidChar c = true →
      Tokenize (s₁ ++ c :: s₂) = (.SyntaxError, []) := by
    intro s₁ c s₂ he hc
    unfold Tokenize
    exact TokenizeLoop_invalid_after c s₂ hc s₁.length s₁ _ le_rfl
      (by simp [List.length_append]; omega) he
  have hinner : ∀ (f : ControlFinder) s₁ (c : Char) s₂,
      Even (s₁.count backtickChar) → IsInvalidChar c = true →
      ParseExpressionInner f (s₁ ++ c :: s₂) = (.SyntaxError, none) := by
    intro f s₁ c s₂ he hc
    have hne : StripSpaces (s₁ ++ c :: s₂) ≠ [] :=
      StripSpaces_ne_nil _ c (by simp) (IsInvalidChar_not_space c hc)
    simp only [ParseExpressionInner, if_neg hne]
    rw [htok s₁ c s₂ he hc]
  refine ⟨fun c s hc => NextToken_invalid c s hc,
    fun fuel s st toks h hne => TokenizeLoop_error_empty fuel s st toks h hne,
    htok, hinner, ?_⟩
  intro f s₁ c s₂ he hc hfast
  simp only [ParseExpression]
  rw [hfast]
  exact hinner f s₁ c s₂ he hc

/-- Closed instance for C8: the input `` `X` & $ `` (spec Scenario F) aborts
tokenization and the whole parse at the `$`. -/
theorem c8_witness :
    Tokenize ("`X` & ".toList ++ '$' :: []) = (.SyntaxError, []) ∧
    ParseExpressionInner emptyFinder ("`X` & ".toList ++ '$' :: []) =
      (.SyntaxError, none) ∧
    ParseExpression emptyFinder ("`X` & ".toList ++ '$' :: []) =
      (.SyntaxError, none) ∧
    NextToken ('$' :: []) = (mkToken .TOK_INVALID, []) :=
  ⟨c8_invalid_character_aborts.2.2.1 _ '$' [] (by decide) (by decide),
   c8_invalid_character_aborts.2.2.2.1 emptyFinder _ '$' [] (by decide) (by decide),
   c8_invalid_character_aborts.2.2.2.2 emptyFinder _ '$' [] (by decide) (by decide)
     (by decide),
   c8_invalid_character_aborts.1 '$' [] (by decide)⟩

section CountLemmas

/-- `ResolvedControlTokenCount` is additive over append. -/
theorem rc_append (f : ControlFinder) (l₁ l₂ : List Token) :
    ResolvedControlTokenCount f (l₁ ++ l₂) =
      ResolvedControlTokenCount f l₁ + ResolvedControlTokenCount f l₂ := by
  simp [ResolvedControlTokenCount, List.filter_append]

/-- A non-control token does not contribute to the resolved count. -/
theorem rc_cons_not_control (f : ControlFinder) (t : Token) (l : List Token)
    (h : (t.type == .TOK_CONTROL) = false) :
    ResolvedControlTokenCount f (t :: l) = ResolvedControlTokenCount f l := by
  simp [ResolvedControlTokenCount, List.filter_cons, h]

/-- The only unary-operator token type is NOT. -/
theorem IsUnaryExpression_eq (ty : TokenType) (h : IsUnaryExpression ty = true) :
    ty = .TOK_NOT := by
  cases ty <;> simp_all [IsUnaryExpression]

/-- A binary-operator token is not a control token. -/
theorem IsBinaryToken_not_control (ty : TokenType) (h : IsBinaryToken ty = true) :
    (ty == TokenType.TOK_CONTROL) = false := by
  cases ty <;> simp_all [IsBinaryToken]

/-- Unfolding `Parsers` at successor fuel: the `Atom` field. -/
theorem Parsers_succ_Atom (f : ControlFinder) (fuel : Nat) (ts : List Token) :
    (Parsers f (fuel + 1)).Atom ts =
      match ts with
      | [] => ((.SyntaxError, none), [])
      | t :: rest =>
        match t.type with
        | .TOK_CONTROL =>
          ((.Successful,
            some (.ControlExpression t.qualifier (FindControl f t.qualifier))),
           rest)
        | .TOK_LPAREN => (Parsers f fuel).Paren rest
        | _ => ((.SyntaxError, none), rest) := rfl

/-- Unfolding `Parsers` at successor fuel: the `Paren` field. -/
theorem Parsers_succ_Paren (f : ControlFinder) (fuel : Nat) (ts : List Token) :
    (Parsers f (fuel + 1)).Paren ts =
      match (Parsers f fuel).Toplevel ts with
      | ((.Successful, oe), rem) =>
        match rem with
        | r :: rest => if r.type = .TOK_RPAREN then ((.Successful, oe), rest)
                       else ((.SyntaxError, none), rest)
        | [] => ((.SyntaxError, none), [])
      | other => other := rfl

/-- Unfolding `Parsers` at successor fuel: the `Unary` field. -/
theorem Parsers_succ_Unary (f : ControlFinder) (fuel : Nat) (ts : List Token) :
    (Parsers f (fuel + 1)).Unary ts =
      match ts with
      | t :: rest =>
        if IsUnaryExpression t.type then
          match (Parsers f fuel).Atom rest with
          | ((.Successful, some a), rem) =>
            ((.Successful, some (.UnaryExpression t.type a)), rem)
          | other => other
        else (Parsers f fuel).Atom ts
      | [] => (Parsers f fuel).Atom [] := rfl

/-- Unfolding `Parsers` at successor fuel: the `BinaryLoop` field. -/
theorem Parsers_succ_BinaryLoop (f : ControlFinder) (fuel : Nat)
    (e : Expression) (ts : List Token) :
    (Parsers f (fuel + 1)).BinaryLoop e ts =
      match ts with
      | t :: rest =>
        if IsBinaryToken t.type then
          match (Parsers f fuel).Unary rest with
          | ((.Successful, some u), rem) =>
            (Parsers f fuel).BinaryLoop (.BinaryExpression t.type e u) rem
          | other => other
        else ((.Successful, some e), ts)
      | [] => ((.Successful, some e), []) := rfl

/-- Unfolding `Parsers` at successor fuel: the `Binary` field. -/
theorem Parsers_succ_Binary (f : ControlFinder) (fuel : Nat) (ts : List Token) :
    (Parsers f (fuel + 1)).Binary ts =
      match (Parsers f fuel).Unary ts with
      | ((.Successful, some e), rem) => (Parsers f fuel).BinaryLoop e rem
      | other => other := rfl

/-- Unfolding `Parsers` at successor fuel: the `Toplevel` field. -/
theorem Parsers_succ_Toplevel (f : ControlFinder) (fuel : Nat) (ts : List Token) :
    (Parsers f (fuel + 1)).Toplevel ts = (Parsers f fuel).Binary ts := rfl

/-- Parse-tree/token-stream correspondence: every parse procedure consumes a
prefix of its input, and `CountNumControls` of the tree it builds equals the
number of control tokens it consumed whose qualifier resolved to a live
control (`BinaryLoop` adds the count of its accumulated left tree). -/
theorem Parsers_count (f : ControlFinder) : ∀ fuel : Nat,
    (∀ ts e rem, (Parsers f fuel).Atom ts = ((.Successful, some e), rem) →
      ∃ pre, ts = pre ++ rem ∧
        CountNumControls e = ResolvedControlTokenCount f pre) ∧
    (∀ ts e rem, (Parsers f fuel).Paren ts = ((.Successful, some e), rem) →
      ∃ pre, ts = pre ++ rem ∧
        CountNumControls e = ResolvedControlTokenCount f pre) ∧
    (∀ ts e rem, (Parsers f fuel).Unary ts = ((.Successful, some e), rem) →
      ∃ pre, ts = pre ++ rem ∧
        CountNumControls e = ResolvedControlTokenCount f pre) ∧
    (∀ e₀ ts e rem,
      (Parsers f fuel).BinaryLoop e₀ ts = ((.Successful, some e), rem) →
      ∃ pre, ts = pre ++ rem ∧
        CountNumControls e = CountNumControls e₀ + ResolvedControlTokenCount f pre) ∧
    (∀ ts e rem, (Parsers f fuel).Binary ts = ((.Successful, some e), rem) →
      ∃ pre, ts = pre ++ rem ∧
        CountNumControls e = ResolvedControlTokenCount f pre) ∧
    (∀ ts e rem, (Parsers f fuel).Toplevel ts = ((.Successful, some e), rem) →
      ∃ pre, ts = pre ++ rem ∧
        CountNumControls e = ResolvedControlTokenCount f pre) := by
  intro fuel
  induction fuel with
  | zero =>
    refine ⟨?_, ?_, ?_, ?_, ?_, ?_⟩ <;> intros <;>
      simp_all [Parsers, zeroPack]
  | succ fuel ih =>
    obtain ⟨ihA, ihP, ihU, ihL, ihB, ihT⟩ := ih
    have hAtom : ∀ ts e rem,
        (Parsers f (fuel + 1)).Atom ts = ((.Successful, some e), rem) →
        ∃ pre, ts = pre ++ rem ∧
          CountNumControls e = ResolvedControlTokenCount f pre := by
      intro ts e rem h
      rw [Parsers_succ_Atom] at h
      cases ts with
      | nil => simp at h
      | cons t rest =>
        rcases t with ⟨ty, q⟩
        cases ty
        case TOK_CONTROL =>
          simp only [Prod.mk.injEq, Option.some.injEq] at h
          obtain ⟨⟨-, he⟩, hrem⟩ := h
          subst hrem
          refine ⟨[⟨.TOK_CONTROL, q⟩], rfl, ?_⟩
          cases hfc : FindControl f q <;>
            simp [← he, CountNumControls, ResolvedControlTokenCount,
              List.filter, hfc]
        case TOK_LPAREN =>
          obtain ⟨pre, hpre, hcount⟩ := ihP rest e rem h
          refine ⟨⟨.TOK_LPAREN, q⟩ :: pre, by rw [List.cons_append, hpre], ?_⟩
          rw [rc_cons_not_control f _ _ (by simp)]
          exact hcount
        all_goals simp at h
    have hParen : ∀ ts e rem,
        (Parsers f (fuel + 1)).Paren ts = ((.Successful, some e), rem) →
        ∃ pre, ts = pre ++ rem ∧
          CountNumControls e = ResolvedControlTokenCount f pre := by
      intro ts e rem h
      rw [Parsers_succ_Paren] at h
      rcases hT : (Parsers f fuel).Toplevel ts with ⟨⟨st, oe⟩, rem'⟩
      rw [hT] at h
      cases st with
      | SyntaxError => simp at h
      | EmptyExpression => simp at h
      | Successful =>
        cases rem' with
        | nil => simp at h
        | cons r rest2 =>
          by_cases hr : r.type = .TOK_RPAREN
          · simp only [hr, reduceIte, Prod.mk.injEq, true_and] at h
            obtain ⟨he, hrem⟩ := h
            subst hrem
            subst he
            obtain ⟨pre', hpre', hcount'⟩ := ihT ts e (r :: rest2) hT
            refine ⟨pre' ++ [r], ?_, ?_⟩
            · rw [hpre', List.append_assoc]
              rfl
            · rw [rc_append, rc_cons_not_control f _ _ (by simp [hr]),
                hcount']
              simp [ResolvedControlTokenCount]
          · simp [hr] at h
    have hUnary : ∀ ts e rem,
        (Parsers f (fuel + 1)).Unary ts = ((.Successful, some e), rem) →
        ∃ pre, ts = pre ++ rem ∧
          CountNumControls e = ResolvedControlTokenCount f pre := by
      intro ts e rem h
      rw [Parsers_succ_Unary] at h
      cases ts with
      | nil => exact ihA [] e rem h
      | cons t rest =>
        by_cases hu : IsUnaryExpression t.type = true
        · simp only [hu, if_true] at h
          rcases hA : (Parsers f fuel).Atom rest with ⟨⟨stA, oeA⟩, remA⟩
          rw [hA] at h
          cases stA with
          | SyntaxError => simp at h
          | EmptyExpression => simp at h
          | Successful =>
            cases oeA with
            | none => simp at h
            | some a =>
              simp only [Prod.mk.injEq, Option.some.injEq, true_and] at h
              obtain ⟨he, hrem⟩ := h
              subst hrem
              obtain ⟨pre', hpre', hcount'⟩ := ihA rest a remA hA
              refine ⟨t :: pre', by rw [List.cons_append, hpre'], ?_⟩
              rw [rc_cons_not_control f _ _
                (by simp [IsUnaryExpression_eq t.type hu])]
              rw [← he]
              exact hcount'
        · have hu' : IsUnaryExpression t.type = false := by simpa using hu
          simp only [hu', Bool.false_eq_true, if_false] at h
          exact ihA (t :: rest) e rem h
    have hLoop : ∀ e₀ ts e rem,
        (Parsers f (fuel + 1)).BinaryLoop e₀ ts = ((.Successful, some e), rem) →
        ∃ pre, ts = pre ++ rem ∧
          CountNumControls e =
            CountNumControls e₀ + ResolvedControlTokenCount f pre := by
      intro e₀ ts e rem h
      rw [Parsers_succ_BinaryLoop] at h
      cases ts with
      | nil =>
        simp only [Prod.mk.injEq, Option.some.injEq] at h
        obtain ⟨⟨-, he⟩, hrem⟩ := h
        refine ⟨[], by simp [← hrem], ?_⟩
        simp [← he, ResolvedControlTokenCount]
      | cons t rest =>
        by_cases hb : IsBinaryToken t.type = true
        · simp only [hb, if_true] at h
          rcases hU : (Parsers f fuel).Unary rest with ⟨⟨stU, oeU⟩, remU⟩
          rw [hU] at h
          cases stU with
          | SyntaxError => simp at h
          | EmptyExpression => simp at h
          | Successful =>
            cases oeU with
            | none => simp at h
            | some u =>
              obtain ⟨pre₂, hpre₂, hc₂⟩ := ihU rest u remU hU
              obtain ⟨pre₃, hpre₃, hc₃⟩ :=
                ihL (.BinaryExpression t.type e₀ u) remU e rem h
              refine ⟨t :: (pre₂ ++ pre₃), ?_, ?_⟩
              · rw [List.cons_append, List.append_assoc, ← hpre₃, hpre₂]
              · rw [rc_cons_not_control f _ _ (IsBinaryToken_not_control _ hb),
                  rc_append, hc₃]
                simp only [CountNumControls]
                omega
        · have hb' : IsBinaryToken t.type = false := by simpa using hb
          simp only [hb', Bool.false_eq_true, if_false, Prod.mk.injEq,
            Option.some.injEq, true_and] at h
          obtain ⟨he, hrem⟩ := h
          refine ⟨[], by simp [← hrem], ?_⟩
          simp [← he, ResolvedControlTokenCount]
    have hBinary : ∀ ts e rem,
        (Parsers f (fuel + 1)).Binary ts = ((.Successful, some e), rem) →
        ∃ pre, ts = pre ++ rem ∧
          CountNumControls e = ResolvedControlTokenCount f pre := by
      intro ts e rem h
      rw [Parsers_succ_Binary] at h
      rcases hU : (Parsers f fuel).Unary ts with ⟨⟨stU, oeU⟩, remU⟩
      rw [hU] at h
      cases stU with
      | SyntaxError => simp at h
      | EmptyExpression => simp at h
      | Successful =>
        cases oeU with
        | none => simp at h
        | some e₁ =>
          obtain ⟨pre₁, hpre₁, hc₁⟩ := ihU ts e₁ remU hU
          obtain ⟨pre₂, hpre₂, hc₂⟩ := ihL e₁ remU e rem h
          refine ⟨pre₁ ++ pre₂, ?_, ?_⟩
          · rw [List.append_assoc, ← hpre₂, hpre₁]
          · rw [rc_append, hc₂, hc₁]
      -- both subgoals already closed
    refine ⟨hAtom, hParen, hUnary, hLoop, hBinary, ?_⟩
    intro ts e rem h
    rw [Parsers_succ_Toplevel] at h
    exact ihB ts e rem h

end CountLemmas

/-- Counterexample to C2: the syntactically valid source `a`, parsed under
the finder with no devices, yields a tree whose `CountNumControls` is `0`,
while the source contains one control-reference token — the leaf counts
`control ? 1 : 0`, not the syntactic reference. -/
theorem c2_counterexample :
    ParseExpression emptyFinder ['a'] =
      (.Successful, some (.ControlExpression ⟨false, [], ['a']⟩ none)) ∧
    CountNumControls (.ControlExpression ⟨false, [], ['a']⟩ none) = 0 ∧
    (Tokenize ['a']).1 = .Successful ∧
    ControlTokenCount (Tokenize ['a']).2 = 1 := by
  refine ⟨by decide, by decide, by decide, by decide⟩

/-- Claim C2 as amended: for a source string that tokenizes Successfully and
whose token sequence the parser consumes completely (only the EOF token
remains), `CountNumControls` of the resulting tree equals the number of
control-reference tokens whose qualifier resolved to a live control — not
the number of all control-reference tokens. -/
theorem c2_count_amended (f : ControlFinder) (s : List Char) (e : Expression)
    (toks : List Token)
    (_htok : Tokenize s = (.Successful, toks))
    (hp : ParseTokens f toks = ((.Successful, some e), [mkToken .TOK_EOF])) :
    CountNumControls e = ResolvedControlTokenCount f toks := by
  unfold ParseTokens at hp
  obtain ⟨pre, hpre, hcount⟩ :=
    (Parsers_count f (4 * toks.length + 8)).2.2.2.2.2 toks e _ hp
  rw [hpre, rc_append, hcount]
  simp [ResolvedControlTokenCount, mkToken]

/-- A finder whose default device resolves every control name (to a control
with id 0 and state 1). -/
def allFinder : ControlFinder :=
  ⟨fun _ => some ⟨fun _ => some ⟨0, 1⟩, fun _ => some ⟨0, 1⟩⟩, [], true⟩

/-- Closed instance for the amended C2: `a & b` under a finder that resolves
every name has two resolved control tokens and the tree counts two. -/
theorem c2_witness :
    Tokenize "a & b".toList =
      (.Successful,
       [⟨.TOK_CONTROL, ⟨false, [], ['a']⟩⟩, mkToken .TOK_AND,
        ⟨.TOK_CONTROL, ⟨false, [], ['b']⟩⟩, mkToken .TOK_EOF]) ∧
    CountNumControls
        (.BinaryExpression .TOK_AND
          (.ControlExpression ⟨false, [], ['a']⟩ (some ⟨0, 1⟩))
          (.ControlExpression ⟨false, [], ['b']⟩ (some ⟨0, 1⟩))) =
      ResolvedControlTokenCount allFinder
        [⟨.TOK_CONTROL, ⟨false, [], ['a']⟩⟩, mkToken .TOK_AND,
         ⟨.TOK_CONTROL, ⟨false, [], ['b']⟩⟩, mkToken .TOK_EOF] :=
  ⟨by decide,
   c2_count_amended allFinder "a & b".toList _ _ (by decide) (by decide)⟩

end ExpressionParser
